import Mathlib

/-!
Verification development for the stream-7z library (remote-random-access
archive engine).  The Go sources under `lib/` are shallowly embedded:

* `lib/utils/path.go`   — `NormalizePath`, `IsValidPath` (Go `path.Clean`
  is embedded segment-wise, matching the stack algorithm of the Go
  standard library).
* `lib/formats/*.go`    — the four format handlers.  External decoder
  libraries (archive/tar, rardecode, yeka/zip, bodgit/sevenzip) are
  modelled by the event/entry sequences they yield and by oracles for
  their fallible open operations; the handler logic itself (filtering,
  encryption bookkeeping, error mapping) is embedded faithfully.
* `lib/rangehttp/client.go` — `Client.RangeRequest` and `skipReader`.
  The HTTP origin is an oracle from the requested `(start, length)`
  window to a response.
* `lib/rangehttp/reader.go` — `RangeReader.ReadAt` (the network fill
  loop after the guard branches is an oracle parameter).
* `lib/archive.go`      — the façade's `Archive.ExtractFile` guard.

Paths are byte strings of the Go code, modelled as `List Char`; error
messages and passwords are Lean `String`s.
-/

namespace Stream7z

/-! ## Path model (lib/utils/path.go and Go path.Clean) -/

/-- The two-character segment `..`. -/
def dotdotSeg : List Char := ['.', '.']

/-- The one-character segment `.`. -/
def dotSeg : List Char := ['.']

/-- `strings.TrimPrefix(p, "/")`: drop one leading slash if present. -/
def trimLeadSlash : List Char → List Char
  | [] => []
  | c :: rest => if c = '/' then rest else c :: rest

/-- `strings.TrimSuffix(s, "/")`: drop one trailing slash if present. -/
def trimSuffixSlash (s : List Char) : List Char :=
  match s.getLast? with
  | some c => if c = '/' then s.dropLast else s
  | none => s

/-- `strings.HasPrefix(s, pre)`. -/
def startsWith : List Char → List Char → Bool
  | [], _ => true
  | _ :: _, [] => false
  | a :: pre, b :: s => a = b && startsWith pre s

/-- `strings.TrimPrefix(s, pre)`. -/
def stripStart (pre s : List Char) : List Char :=
  if startsWith pre s then s.drop pre.length else s

/-- `strings.HasSuffix(s, "/")`. -/
def endsWithSlash (s : List Char) : Bool :=
  match s.getLast? with
  | some c => c = '/'
  | none => false

/-- `strings.Contains(s, "..")`: two adjacent dots anywhere. -/
def hasDotdot : List Char → Bool
  | '.' :: '.' :: _ => true
  | _ :: rest => hasDotdot rest
  | [] => false

/-- Split a byte string on `'/'` (semantics of iterating the path
between slashes, as Go `path.Clean` does). -/
def splitSlash : List Char → List (List Char)
  | [] => [[]]
  | c :: rest =>
    if c = '/' then [] :: splitSlash rest
    else
      match splitSlash rest with
      | [] => [[c]]
      | s :: ss => (c :: s) :: ss

/-- Join segments with `'/'`. -/
def joinSlash : List (List Char) → List Char
  | [] => []
  | [s] => s
  | s :: ss => s ++ '/' :: joinSlash ss

/-- One step of Go `path.Clean`'s element processing: empty and `.`
elements are dropped, `..` pops the previous element when one is
poppable, is dropped at the root when `rooted`, and is kept otherwise;
any other element is appended. -/
def cleanStep (rooted : Bool) (acc : List (List Char)) (seg : List Char) :
    List (List Char) :=
  if seg = [] ∨ seg = dotSeg then acc
  else if seg = dotdotSeg then
    match acc.getLast? with
    | some l => if l = dotdotSeg then acc ++ [dotdotSeg] else acc.dropLast
    | none => if rooted then [] else [dotdotSeg]
  else acc ++ [seg]

/-- Process all elements of the split path. -/
def cleanSegsGo (rooted : Bool) (acc : List (List Char)) :
    List (List Char) → List (List Char)
  | [] => acc
  | s :: rest => cleanSegsGo rooted (cleanStep rooted acc s) rest

/-- Go `path.Clean`. -/
def clean (p : List Char) : List Char :=
  if p = [] then dotSeg
  else
    let rooted : Bool := p.head? = some '/'
    let segs := cleanSegsGo rooted [] (splitSlash p)
    if segs = [] then (if rooted then ['/'] else dotSeg)
    else (if rooted then ['/'] else []) ++ joinSlash segs

/-- `utils.NormalizePath` (lib/utils/path.go): trim a leading slash,
`path.Clean`, trim a leading slash again. -/
def NormalizePath (p : List Char) : List Char :=
  trimLeadSlash (clean (trimLeadSlash p))

/-- `utils.IsValidPath` (lib/utils/path.go): reject when the raw path
contains `..` as a substring, or its normalization does. -/
def IsValidPath (p : List Char) : Bool :=
  if hasDotdot p then false
  else if hasDotdot (NormalizePath p) then false
  else true

/-- No segment of the list is `..`. -/
def noDotdotSeg : List (List Char) → Bool
  | [] => true
  | s :: rest => if s = dotdotSeg then false else noDotdotSeg rest

/-- Any `..` segments form a leading prefix of the list. -/
def dotdotOnlyLeading : List (List Char) → Bool
  | [] => true
  | s :: rest => if s = dotdotSeg then dotdotOnlyLeading rest else noDotdotSeg rest

/-! ## Data model (lib/formats/formats.go) -/

/-- `formats.FileEntry`.  The modification time is an abstract stamp. -/
structure FileEntry where
  path : List Char
  size : Int
  compressedSize : Int
  modTime : Int
  isDir : Bool
  deriving DecidableEq, Repr

/-- `formats.ArchiveInfo`. -/
structure ArchiveInfo where
  isEncrypted : Bool
  requiresPassword : Bool
  totalFiles : Nat
  totalSize : Int
  files : List FileEntry
  comment : String
  deriving DecidableEq, Repr

/-- The zero `ArchiveInfo` each handler starts from. -/
def ArchiveInfo.init (comment : String) : ArchiveInfo :=
  ⟨false, false, 0, 0, [], comment⟩

/-- Append one entry and update the non-directory counters, as every
handler's enumeration loop does. -/
def ArchiveInfo.add (info : ArchiveInfo) (e : FileEntry) : ArchiveInfo :=
  { info with
    files := info.files ++ [e]
    totalFiles := info.totalFiles + (if e.isDir then 0 else 1)
    totalSize := info.totalSize + (if e.isDir then 0 else e.size) }

/-- Error values of the library core: `formats.FormatError` (with its
message), wrapped lower-level causes (`utils.WrapError` context plus
cause text), the façade's `utils.ErrPathTraversal`, and the transport's
unexpected-status failure. -/
inductive ArchiveError where
  | formatError (msg : String)
  | wrapped (ctx : String) (cause : String)
  | pathTraversal
  | unexpectedStatus (code : Nat)
  deriving DecidableEq, Repr

/-- `formats.ErrPasswordRequired`. -/
def passwordRequiredErr : ArchiveError := .formatError "password required"

/-- `formats.ErrPasswordIncorrect`. -/
def passwordIncorrectErr : ArchiveError := .formatError "incorrect password"

/-- `formats.ErrFileNotFound`. -/
def fileNotFoundErr : ArchiveError := .formatError "file not found in archive"

/-- Go's `(*ArchiveInfo, error)` return pair of the `GetInfo` methods:
both components may be populated at once (the dual signal). -/
abbrev InfoResult := Option ArchiveInfo × Option ArchiveError

/-! ## The shared innerPath filter of the TAR / RAR / 7Z handlers

tar.go lines 185–218, rar.go lines 142–181, sevenzip.go lines 147–172
are textually identical: normalize `innerPath`, append `"/"` when the
result is nonempty, then filter entry names. -/

/-- The filter value the TAR/RAR/7Z handlers compute from `innerPath`. -/
def legacyInner (innerPath : List Char) : List Char :=
  let np := NormalizePath innerPath
  if np = [] then np else np ++ ['/']

/-- Whether the TAR/RAR/7Z loop keeps an entry named `name`, given the
precomputed filter value `ip`. -/
def legacyKeep (ip : List Char) (name : List Char) : Bool :=
  let nn := NormalizePath name
  if ip = [] then true
  else if ip = ['/'] then !(trimSuffixSlash nn).contains '/'
  else startsWith ip nn && !(trimSuffixSlash (stripStart ip nn)).contains '/'

/-! ## TAR handler (lib/formats/tar.go)

The `archive/tar` stream that the (decompressed) section reader yields
is modelled as a list of events: a header, or a read error with the
library's message.  Decompressor construction failure is the `compErr`
parameter. -/

structure TarHeader where
  name : List Char
  size : Int
  modTime : Int
  typeflagDir : Bool
  deriving DecidableEq, Repr

inductive TarEvent where
  | header (h : TarHeader)
  | errRead (msg : String)
  deriving DecidableEq, Repr

/-- The `FileEntry` tar.go builds from a header (compressed size 0). -/
def tarEntry (h : TarHeader) : FileEntry :=
  ⟨h.name, h.size, 0, h.modTime, h.typeflagDir⟩

/-- The enumeration loop of `TarFormat.GetInfo`. -/
def tarGetInfoLoop (info : ArchiveInfo) : List TarEvent → InfoResult
  | [] => (some info, none)
  | .errRead m :: _ => (none, some (.wrapped "failed to read TAR header" m))
  | .header h :: rest => tarGetInfoLoop (info.add (tarEntry h)) rest

/-- `TarFormat.GetInfo`. -/
def TarFormat.GetInfo (password : String) (compErr : Option String)
    (events : List TarEvent) : InfoResult :=
  if password ≠ "" then
    (none, some (.formatError "TAR format does not support encryption"))
  else
    match compErr with
    | some m => (none, some (.wrapped "failed to create decompressor" m))
    | none => tarGetInfoLoop (ArchiveInfo.init "") events

/-- The enumeration loop of `TarFormat.ListFiles`. -/
def tarListLoop (ip : List Char) :
    List TarEvent → Except ArchiveError (List FileEntry)
  | [] => .ok []
  | .errRead m :: _ => .error (.wrapped "failed to read TAR header" m)
  | .header h :: rest =>
    match tarListLoop ip rest with
    | .error e => .error e
    | .ok fs => .ok ((if legacyKeep ip h.name then [tarEntry h] else []) ++ fs)

/-- `TarFormat.ListFiles`. -/
def TarFormat.ListFiles (password : String) (compErr : Option String)
    (innerPath : List Char) (events : List TarEvent) :
    Except ArchiveError (List FileEntry) :=
  if password ≠ "" then
    .error (.formatError "TAR format does not support encryption")
  else
    match compErr with
    | some m => .error (.wrapped "failed to create decompressor" m)
    | none => tarListLoop (legacyInner innerPath) events

/-- The scan loop of `TarFormat.ExtractFile`; the result is the
announced uncompressed size (the stream itself is the library's). -/
def tarExtractLoop (target : List Char) :
    List TarEvent → Except ArchiveError Int
  | [] => .error fileNotFoundErr
  | .errRead m :: _ => .error (.wrapped "failed to read TAR header" m)
  | .header h :: rest =>
    if NormalizePath h.name = target then .ok h.size
    else tarExtractLoop target rest

/-- `TarFormat.ExtractFile`. -/
def TarFormat.ExtractFile (password : String) (compErr : Option String)
    (filePath : List Char) (events : List TarEvent) :
    Except ArchiveError Int :=
  if password ≠ "" then
    .error (.formatError "TAR format does not support encryption")
  else
    match compErr with
    | some m => .error (.wrapped "failed to create decompressor" m)
    | none => tarExtractLoop (NormalizePath filePath) events

/-! ## RAR handler (lib/formats/rar.go)

`rardecode`'s forward-only iteration is modelled as a list of events; a
library error whose text contains "password" or "encrypted" is the
`errPassword` event, any other error `errOther`.  `NewReader` failure
is the `openErr` parameter. -/

structure RarHeader where
  name : List Char
  unPackedSize : Int
  packedSize : Int
  modTime : Int
  isDir : Bool
  deriving DecidableEq, Repr

inductive RarEvent where
  | header (h : RarHeader)
  | errPassword
  | errOther (msg : String)
  deriving DecidableEq, Repr

/-- The `FileEntry` rar.go builds from a header. -/
def rarEntry (h : RarHeader) : FileEntry :=
  ⟨h.name, h.unPackedSize, h.packedSize, h.modTime, h.isDir⟩

/-- The enumeration loop of `RarFormat.GetInfo`. -/
def rarGetInfoLoop (password : String) (info : ArchiveInfo) :
    List RarEvent → InfoResult
  | [] =>
    if info.isEncrypted ∧ password = "" then
      (some { info with requiresPassword := true }, some passwordRequiredErr)
    else (some info, none)
  | .errPassword :: _ =>
    let info' := { info with isEncrypted := true, requiresPassword := true }
    if password ≠ "" then (some info', some passwordIncorrectErr)
    else (some info', some passwordRequiredErr)
  | .errOther m :: _ => (none, some (.wrapped "failed to read RAR header" m))
  | .header h :: rest => rarGetInfoLoop password (info.add (rarEntry h)) rest

/-- `RarFormat.GetInfo`. -/
def RarFormat.GetInfo (password : String) (openErr : Option String)
    (events : List RarEvent) : InfoResult :=
  match openErr with
  | some m => (none, some (.wrapped "failed to open RAR archive" m))
  | none => rarGetInfoLoop password (ArchiveInfo.init "") events

/-- The enumeration loop of `RarFormat.ListFiles`. -/
def rarListLoop (password : String) (ip : List Char) :
    List RarEvent → Except ArchiveError (List FileEntry)
  | [] => .ok []
  | .errPassword :: _ =>
    if password ≠ "" then .error passwordIncorrectErr
    else .error passwordRequiredErr
  | .errOther m :: _ => .error (.wrapped "failed to read RAR header" m)
  | .header h :: rest =>
    match rarListLoop password ip rest with
    | .error e => .error e
    | .ok fs => .ok ((if legacyKeep ip h.name then [rarEntry h] else []) ++ fs)

/-- `RarFormat.ListFiles`. -/
def RarFormat.ListFiles (password : String) (openErr : Option String)
    (innerPath : List Char) (events : List RarEvent) :
    Except ArchiveError (List FileEntry) :=
  match openErr with
  | some m => .error (.wrapped "failed to open RAR archive" m)
  | none => rarListLoop password (legacyInner innerPath) events

/-! ## ZIP handler (lib/formats/zip.go)

`zip.NewReader`'s entry table is the list of `ZipFile`s; each `name` is
the already charset-decoded form (`decodeName` applied).  `file.Open()`
after `SetPassword` is the oracle `openRes` indexed by the entry's
position: the library either succeeds, fails with an error whose text
contains "password", or fails otherwise. -/

structure ZipFile where
  name : List Char
  encrypted : Bool
  uncompressedSize : Int
  compressedSize : Int
  modTime : Int
  fiIsDir : Bool
  deriving DecidableEq, Repr

inductive ZipOpenRes where
  | ok
  | errPassword
  | errOther (msg : String)
  deriving DecidableEq, Repr

/-- The `FileEntry` zip.go builds from a library entry:
`isDir` is `strings.HasSuffix(fileName, "/") || file.FileInfo().IsDir()`. -/
def zipEntry (f : ZipFile) : FileEntry :=
  ⟨f.name, f.uncompressedSize, f.compressedSize, f.modTime,
    endsWithSlash f.name || f.fiIsDir⟩

/-- The enumeration loop of `ZipFormat.GetInfo` (index `i`, the
`passwordVerified` flag, and the accumulated info are the loop state). -/
def zipGetInfoLoop (openRes : Nat → ZipOpenRes) (password : String) :
    Nat → Bool → ArchiveInfo → List ZipFile → InfoResult
  | _, _, info, [] =>
    if info.isEncrypted ∧ password = "" then
      (some { info with requiresPassword := true }, some passwordRequiredErr)
    else (some info, none)
  | i, verified, info, f :: rest =>
    if f.encrypted then
      let infoE := { info with isEncrypted := true }
      if ¬verified ∧ password ≠ "" then
        match openRes i with
        | .ok => zipGetInfoLoop openRes password (i + 1) true
            (infoE.add (zipEntry f)) rest
        | .errPassword =>
          (some { infoE with requiresPassword := true },
            some passwordIncorrectErr)
        | .errOther m => (none, some (.wrapped "failed to verify password" m))
      else if password = "" then
        zipGetInfoLoop openRes password (i + 1) verified
          ({ infoE with requiresPassword := true }.add (zipEntry f)) rest
      else
        zipGetInfoLoop openRes password (i + 1) verified
          (infoE.add (zipEntry f)) rest
    else zipGetInfoLoop openRes password (i + 1) verified
      (info.add (zipEntry f)) rest

/-- `ZipFormat.GetInfo`; `openErr` is `zip.NewReader` failure and
`comment` the archive comment the library reports. -/
def ZipFormat.GetInfo (password : String) (openErr : Option String)
    (comment : String) (openRes : Nat → ZipOpenRes) (files : List ZipFile) :
    InfoResult :=
  match openErr with
  | some m => (none, some (.wrapped "failed to open ZIP archive" m))
  | none => zipGetInfoLoop openRes password 0 false (ArchiveInfo.init comment) files

/-- The `(listAll, isRoot, innerPath)` triple `ZipFormat.ListFiles`
computes before its loop (the fixed handling of `""` and `"/"`). -/
def zipInnerCfg (innerPath : List Char) : Bool × Bool × List Char :=
  let listAll := innerPath = []
  let isRoot := innerPath = ['/']
  let np0 := NormalizePath innerPath
  let np1 := if np0 = dotSeg then [] else np0
  let ip := if np1 ≠ [] ∧ ¬listAll ∧ ¬isRoot then np1 ++ ['/'] else np1
  (listAll, isRoot, ip)

/-- Whether the ZIP loop keeps an entry named `name`. -/
def zipKeep (listAll isRoot : Bool) (ip : List Char) (name : List Char) : Bool :=
  let nn := NormalizePath name
  if listAll then true
  else if isRoot then !(trimSuffixSlash nn).contains '/'
  else startsWith ip nn && !(trimSuffixSlash (stripStart ip nn)).contains '/'

/-- The enumeration loop of `ZipFormat.ListFiles`: filter first, then
password verification for encrypted entries. -/
def zipListLoop (openRes : Nat → ZipOpenRes) (password : String)
    (listAll isRoot : Bool) (ip : List Char) :
    Nat → Bool → List ZipFile → Except ArchiveError (List FileEntry)
  | _, _, [] => .ok []
  | i, verified, f :: rest =>
    if ¬ zipKeep listAll isRoot ip f.name then
      zipListLoop openRes password listAll isRoot ip (i + 1) verified rest
    else if f.encrypted ∧ ¬verified then
      if password = "" then .error passwordRequiredErr
      else
        match openRes i with
        | .ok =>
          match zipListLoop openRes password listAll isRoot ip (i + 1) true rest with
          | .error e => .error e
          | .ok fs => .ok (zipEntry f :: fs)
        | .errPassword => .error passwordIncorrectErr
        | .errOther m => .error (.wrapped "failed to open encrypted file" m)
    else
      match zipListLoop openRes password listAll isRoot ip (i + 1) verified rest with
      | .error e => .error e
      | .ok fs => .ok (zipEntry f :: fs)

/-- `ZipFormat.ListFiles`. -/
def ZipFormat.ListFiles (password : String) (openErr : Option String)
    (openRes : Nat → ZipOpenRes) (innerPath : List Char)
    (files : List ZipFile) : Except ArchiveError (List FileEntry) :=
  match openErr with
  | some m => .error (.wrapped "failed to open ZIP archive" m)
  | none =>
    let cfg := zipInnerCfg innerPath
    zipListLoop openRes password cfg.1 cfg.2.1 cfg.2.2 0 false files

/-! ## 7Z handler (lib/formats/sevenzip.go)

`sevenzip.NewReader(WithPassword)` either succeeds, fails with a
password/encrypted error, or fails otherwise (`openRes`).  When the
password is empty, `GetInfo` probes each entry with `file.Open()`
(`entryOpen`, indexed by position); a password-flavoured failure marks
the archive encrypted and breaks the loop. -/

structure SzFile where
  name : List Char
  uncompressedSize : Int
  modTime : Int
  fiIsDir : Bool
  deriving DecidableEq, Repr

inductive SzOpen where
  | ok
  | errPassword
  | errOther (msg : String)
  deriving DecidableEq, Repr

/-- The `FileEntry` sevenzip.go builds (compressed size 0 always). -/
def szEntry (f : SzFile) : FileEntry :=
  ⟨f.name, f.uncompressedSize, 0, f.modTime, f.fiIsDir⟩

/-- The enumeration loop of `SevenZipFormat.GetInfo`; note the `break`
after an encrypted entry is appended. -/
def szGetInfoLoop (password : String) (entryOpen : Nat → SzOpen) :
    Nat → ArchiveInfo → List SzFile → ArchiveInfo
  | _, info, [] => info
  | i, info, f :: rest =>
    let isEnc := password = "" ∧ entryOpen i = .errPassword
    let info1 :=
      if isEnc then { info with isEncrypted := true, requiresPassword := true }
      else info
    let info2 := info1.add (szEntry f)
    if isEnc then info2 else szGetInfoLoop password entryOpen (i + 1) info2 rest

/-- `SevenZipFormat.GetInfo`. -/
def SevenZipFormat.GetInfo (password : String) (openRes : SzOpen)
    (entryOpen : Nat → SzOpen) (files : List SzFile) : InfoResult :=
  match openRes with
  | .errPassword =>
    let info : ArchiveInfo :=
      { isEncrypted := true, requiresPassword := true, totalFiles := 0,
        totalSize := 0, files := [], comment := "" }
    if password ≠ "" then (some info, some passwordIncorrectErr)
    else (some info, some passwordRequiredErr)
  | .errOther m => (none, some (.wrapped "failed to open 7z archive" m))
  | .ok =>
    let info := szGetInfoLoop password entryOpen 0 (ArchiveInfo.init "") files
    if info.isEncrypted ∧ password = "" then (some info, some passwordRequiredErr)
    else (some info, none)

/-- `SevenZipFormat.ListFiles` (no per-entry probing; the legacy
innerPath filter shared with TAR and RAR). -/
def SevenZipFormat.ListFiles (password : String) (openRes : SzOpen)
    (innerPath : List Char) (files : List SzFile) :
    Except ArchiveError (List FileEntry) :=
  match openRes with
  | .errPassword =>
    if password ≠ "" then .error passwordIncorrectErr
    else .error passwordRequiredErr
  | .errOther m => .error (.wrapped "failed to open 7z archive" m)
  | .ok =>
    let ip := legacyInner innerPath
    .ok ((files.filter fun f => legacyKeep ip f.name).map szEntry)

/-! ## Façade (lib/archive.go) -/

/-- `Archive.ExtractFile`: the path-traversal guard runs before the
handler.  The handler (and with it every range fetch it would issue) is
an oracle from the file path and password to the stream bytes and
announced size. -/
def Archive.ExtractFile
    (handler : List Char → String → Except ArchiveError (List Nat × Int))
    (filePath : List Char) (password : String) :
    Except ArchiveError (List Nat × Int) :=
  if ¬ IsValidPath filePath then .error .pathTraversal
  else handler filePath password

/-! ## Range transport (lib/rangehttp/client.go) -/

/-- An origin response: status, body bytes, and `Content-Length`. -/
structure HttpResp where
  status : Nat
  body : List Nat
  contentLength : Int
  deriving DecidableEq, Repr

/-- What `Client.RangeRequest` hands back: the empty reader for the
zero-length short-circuit, the raw response body, or a `skipReader`
configured with the bytes to discard and the exposed length. -/
inductive RangeResult where
  | emptyBody
  | plain (body : List Nat)
  | skip (body : List Nat) (skipN : Int) (length : Int)
  deriving DecidableEq, Repr

/-- `Client.RangeRequest`.  The origin is an oracle from the requested
`(start, length)` window (the `Range` header content) to a response;
the second component counts HTTP requests actually issued. -/
def Client.RangeRequest (http : Int → Int → HttpResp)
    (start length : Int) : Except ArchiveError RangeResult × Nat :=
  if length = 0 then (.ok .emptyBody, 0)
  else
    let resp := http start length
    if resp.status = 206 ∨ resp.status = 200 then
      if resp.status = 200 ∧ start > 0 then
        let len2 := if length = -1 then resp.contentLength - start else length
        (.ok (.skip resp.body start len2), 1)
      else (.ok (.plain resp.body), 1)
    else (.error (.unexpectedStatus resp.status), 1)

/-! ### skipReader (client.go lines 162–207) -/

/-- The mutable state of a `skipReader`: the unread suffix of the
underlying body, the configured skip and exposed length, the bytes
delivered so far, and whether the `sync.Once` skip has run. -/
structure SkipState where
  rem : List Nat
  skipN : Int
  length : Int
  readCount : Int
  skippedDone : Bool
  deriving DecidableEq, Repr

/-- Read-error model for the transport readers. -/
inductive ReadErr where
  | eof
  | closedReader
  | negativeOffset
  | fetch (msg : String)
  deriving DecidableEq, Repr

/-- The part of `skipReader.Read` after the skip has run: cap the
buffer to the remaining exposed length, then read from the underlying
body (which yields `0, EOF` once exhausted). -/
def skipReadBody (st : SkipState) (bufCap : Nat) :
    List Nat × Option ReadErr × SkipState :=
  if st.length > 0 ∧ st.readCount ≥ st.length then ([], some .eof, st)
  else
    let p := if st.length > 0 then min bufCap (st.length - st.readCount).toNat
             else bufCap
    if st.rem = [] then ([], some .eof, st)
    else
      let n := min p st.rem.length
      (st.rem.take n, none,
        { st with rem := st.rem.drop n, readCount := st.readCount + n })

/-- `skipReader.Read`: on the first call `io.CopyN` discards the first
`skipN` bytes (an early end of the body surfaces as the copy's error,
with the `sync.Once` still marked done). -/
def skipRead (st : SkipState) (bufCap : Nat) :
    List Nat × Option ReadErr × SkipState :=
  if st.skippedDone then skipReadBody st bufCap
  else if (st.rem.length : Int) < st.skipN then
    ([], some .eof, { st with rem := [], skippedDone := true })
  else
    skipReadBody
      { st with rem := st.rem.drop st.skipN.toNat, skippedDone := true } bufCap

/-- A caller draining the reader with buffers of size `bufCap` until
the first error (as `io.ReadAll` does); `fuel` bounds the iteration. -/
def skipDrain : Nat → SkipState → Nat → List Nat
  | 0, _, _ => []
  | fuel + 1, st, bufCap =>
    match skipRead st bufCap with
    | (out, some _, _) => out
    | (out, none, st') => out ++ skipDrain fuel st' bufCap

/-! ## Random-access adapter (RangeReader.ReadAt) -/

/-- `RangeReader.ReadAt`: the closed-reader guard, the negative-offset
guard, the end-of-input guard, then the bounded-length computation.
The range fetch plus fill loop that follows is the oracle `fill`,
mapping the offset and computed length to Go's `(n, err)`. -/
def RangeReader.ReadAt (closed : Bool) (size : Int)
    (fill : Int → Int → Nat × Option ReadErr) (bufLen : Nat) (off : Int) :
    Nat × Option ReadErr :=
  if closed then (0, some .closedReader)
  else if off < 0 then (0, some .negativeOffset)
  else if off ≥ size then (0, some .eof)
  else
    let length := if off + (bufLen : Int) > size then size - off else (bufLen : Int)
    fill off length

/-! ## Concrete fixtures used by witnesses and counterexamples -/

/-- A plain 3-byte TAR member `a.txt`. -/
def tHdrA : TarHeader := ⟨"a.txt".toList, 3, 0, false⟩

/-- A plain RAR member `b.txt`. -/
def rHdrA : RarHeader := ⟨"b.txt".toList, 4, 2, 0, false⟩

/-- A plain 7Z member `c.txt`. -/
def szFileA : SzFile := ⟨"c.txt".toList, 5, 0, false⟩

/-- A plain ZIP member `a.txt`. -/
def zFileA : ZipFile := ⟨"a.txt".toList, false, 3, 2, 0, false⟩

/-- An encrypted ZIP member `s.txt`. -/
def zEncFileA : ZipFile := ⟨"s.txt".toList, true, 3, 2, 0, false⟩

/-- A ZIP open oracle that always succeeds. -/
def zOpenOkAll : Nat → ZipOpenRes := fun _ => .ok

/-- A 7Z per-entry open oracle that always succeeds. -/
def szOpenOkAll : Nat → SzOpen := fun _ => .ok

/-- A fill oracle for `RangeReader.ReadAt` that reads nothing. -/
def fillZero : Int → Int → Nat × Option ReadErr := fun _ _ => (0, none)

/-- An extract handler that succeeds with an empty stream. -/
def handlerOkEmpty : List Char → String → Except ArchiveError (List Nat × Int) :=
  fun _ _ => .ok ([], 0)

/-- An origin that answers every range request with `200 OK` and the
full five-byte file (a server that ignores `Range`). -/
def httpOk200 : Int → Int → HttpResp := fun _ _ => ⟨200, [10, 20, 30, 40, 50], 5⟩

/-- The `ArchiveInfo` the ZIP handler returns for `[zEncFileA]` with an
empty password. -/
def zOutEnc : ArchiveInfo := ⟨true, true, 1, 3, [zipEntry zEncFileA], ""⟩

/-- The `ArchiveInfo` the RAR handler returns when enumeration fails
with a password error at once. -/
def rOutEnc : ArchiveInfo := ⟨true, true, 0, 0, [], ""⟩

end Stream7z

namespace Stream7z

example : NormalizePath "path/to/file".toList = "path/to/file".toList := by decide
example : NormalizePath "/path/to/file".toList = "path/to/file".toList := by decide
example : NormalizePath "/path/../to/file".toList = "to/file".toList := by decide
example : NormalizePath "./path/to/file".toList = "path/to/file".toList := by decide
example : NormalizePath "".toList = ".".toList := by decide
example : NormalizePath "/".toList = ".".toList := by decide
example : IsValidPath "path/to/file".toList = true := by decide
example : IsValidPath "../../../etc/passwd".toList = false := by decide
example : IsValidPath "path/../to/file".toList = false := by decide
example : IsValidPath "..".toList = false := by decide
example : IsValidPath ".".toList = true := by decide

end Stream7z

namespace Stream7z

/-! ## Sanity checks of Go path.Clean behaviour -/

example : clean "abc//def//ghi".toList = "abc/def/ghi".toList := by decide
example : clean "/..".toList = "/".toList := by decide
example : clean "../../a".toList = "../../a".toList := by decide
example : clean "a/b/..".toList = "a".toList := by decide
example : clean "./".toList = ".".toList := by decide
example : clean "/a/".toList = "/a".toList := by decide

/-! ## C10 — zero-length range fetch -/

/-- C10: for every URL (origin oracle) and every offset, a range fetch
with length exactly 0 returns the empty reader and issues no HTTP
request at all. -/
theorem c10_zero_length_no_request :
    ∀ (http : Int → Int → HttpResp) (start : Int),
      Client.RangeRequest http start 0 = (.ok .emptyBody, 0) := by
  intro http start
  simp [Client.RangeRequest]

/-! ## C8 — TAR password rejection -/

/-- C8 counterexample: the claim names the message
`TAR does not support encryption`, but the code's `FormatError` carries
`TAR format does not support encryption`. -/
theorem c8_counterexample :
    (TarFormat.GetInfo "x" none []).snd =
      some (.formatError "TAR format does not support encryption") ∧
    "TAR format does not support encryption" ≠
      "TAR does not support encryption" := by
  constructor
  · rfl
  · decide

/-- C8 (amended): for every non-empty password, each of the TAR
handler's GetInfo, ListFiles and ExtractFile fails with the
`FormatError` whose message is `TAR format does not support
encryption`. -/
theorem c8_tar_rejects_password :
    ∀ (password : String), password ≠ "" →
    ∀ (compErr : Option String) (innerPath filePath : List Char)
      (events : List TarEvent),
      TarFormat.GetInfo password compErr events =
        (none, some (.formatError "TAR format does not support encryption")) ∧
      TarFormat.ListFiles password compErr innerPath events =
        .error (.formatError "TAR format does not support encryption") ∧
      TarFormat.ExtractFile password compErr filePath events =
        .error (.formatError "TAR format does not support encryption") := by
  intro pw hpw compErr innerPath filePath events
  refine ⟨?_, ?_, ?_⟩ <;>
    simp [TarFormat.GetInfo, TarFormat.ListFiles, TarFormat.ExtractFile, hpw]

/-- C8 witness at the concrete password `x`. -/
theorem c8_witness :
    TarFormat.GetInfo "x" none [] =
      (none, some (.formatError "TAR format does not support encryption")) ∧
    TarFormat.ListFiles "x" none [] [] =
      .error (.formatError "TAR format does not support encryption") ∧
    TarFormat.ExtractFile "x" none [] [] =
      .error (.formatError "TAR format does not support encryption") :=
  c8_tar_rejects_password "x" (by decide) none [] [] []

/-! ## C4 — ReadAt beyond the size -/

/-- C4 counterexample: on a closed reader (and on a reader whose
recorded size is negative) an offset at or past the size does not
yield `(0, EOF)`. -/
theorem c4_counterexample :
    RangeReader.ReadAt true 5 fillZero 4 5 = (0, some .closedReader) ∧
    some ReadErr.closedReader ≠ some ReadErr.eof ∧
    RangeReader.ReadAt false (-5) fillZero 4 (-3) = (0, some .negativeOffset) ∧
    (-5 : Int) ≤ (-3 : Int) := by
  refine ⟨?_, by decide, ?_, by decide⟩ <;> rfl

/-- C4 (amended): for every RangeReader that has not been closed and
whose size is nonnegative, every fill oracle, every buffer and every
offset `off ≥ size`, ReadAt returns 0 bytes and EOF. -/
theorem c4_readAt_eof_beyond_size :
    ∀ (closed : Bool) (size : Int) (fill : Int → Int → Nat × Option ReadErr)
      (bufLen : Nat) (off : Int),
      closed = false → 0 ≤ size → size ≤ off →
      RangeReader.ReadAt closed size fill bufLen off = (0, some .eof) := by
  intro closed size fill bufLen off hc hs hoff
  subst hc
  rw [RangeReader.ReadAt]
  rw [if_neg (by simp), if_neg (by omega), if_pos (by omega)]

/-- C4 witness: size 5, offset 7. -/
theorem c4_witness :
    RangeReader.ReadAt false 5 fillZero 4 7 = (0, some .eof) :=
  c4_readAt_eof_beyond_size false 5 fillZero 4 7 rfl (by decide) (by decide)

end Stream7z

namespace Stream7z

/-! ## C1 — list("") versus info.entries -/

/-- C1 (code bug, evaluated at the failing input): for the TAR and RAR
handlers, listing with the empty `innerPath` returns no entries at all
(`NormalizePath("")` is `"."`, so the loop filters on the prefix `./`),
while `GetInfo` enumerates the same archive's single entry — so
`list("")` is not `info.entries`. -/
theorem c1_empty_inner_list_loses_entries :
    TarFormat.ListFiles "" none [] [.header tHdrA] = .ok [] ∧
    (TarFormat.GetInfo "" none [.header tHdrA]).fst.map ArchiveInfo.files =
      some [tarEntry tHdrA] ∧
    RarFormat.ListFiles "" none [] [.header rHdrA] = .ok [] ∧
    (RarFormat.GetInfo "" none [.header rHdrA]).fst.map ArchiveInfo.files =
      some [rarEntry rHdrA] ∧
    ([] : List FileEntry) ≠ [tarEntry tHdrA] ∧
    ([] : List FileEntry) ≠ [rarEntry rHdrA] := by
  refine ⟨rfl, rfl, rfl, rfl, by decide, by decide⟩

/-! ## C2 — list("/") versus the top level -/

/-- C2 (code bug, evaluated at the failing input): for the TAR and 7Z
handlers, listing with `innerPath = "/"` returns no entries even though
the archive has a top-level member (the filter value becomes `./`, and
the comparison with the literal `"/"` inside the loop is dead code);
the ZIP handler — whose fixed pre-normalization handling of `"/"` shows
the intended semantics — does return the top-level entry. -/
theorem c2_root_inner_list_loses_entries :
    TarFormat.ListFiles "" none ['/'] [.header tHdrA] = .ok [] ∧
    SevenZipFormat.ListFiles "" .ok ['/'] [szFileA] = .ok [] ∧
    ZipFormat.ListFiles "" none zOpenOkAll ['/'] [zFileA] =
      .ok [zipEntry zFileA] ∧
    ([] : List FileEntry) ≠ [tarEntry tHdrA] ∧
    ([] : List FileEntry) ≠ [szEntry szFileA] := by
  refine ⟨rfl, rfl, rfl, by decide, by decide⟩

end Stream7z

namespace Stream7z

/-! ## C3 — the façade's path-traversal guard -/

/-- C3 counterexample: `a..b` normalizes to itself and contains no `..`
segment, yet the façade rejects it with the path-traversal error,
because `IsValidPath` tests for `..` as a substring. -/
theorem c3_counterexample :
    Archive.ExtractFile handlerOkEmpty "a..b".toList "" = .error .pathTraversal ∧
    dotdotSeg ∉ splitSlash (NormalizePath "a..b".toList) := by
  refine ⟨rfl, by decide⟩

/-- C3 (amended): provided the handler itself never reports a
path-traversal error (no handler in the code does), the façade's
extract fails with the path-traversal error iff the raw path — or its
normalized form — contains `..` as a substring; and whenever that
holds, the result does not depend on the handler at all (the handler is
never invoked, hence no network I/O happens). -/
theorem c3_guard_substring :
    ∀ (handler : List Char → String → Except ArchiveError (List Nat × Int))
      (p : List Char) (password : String),
      (∀ q w, handler q w ≠ .error .pathTraversal) →
      ((Archive.ExtractFile handler p password = .error .pathTraversal) ↔
        (hasDotdot p = true ∨ hasDotdot (NormalizePath p) = true)) ∧
      ((hasDotdot p = true ∨ hasDotdot (NormalizePath p) = true) →
        ∀ handler₂,
          Archive.ExtractFile handler p password =
            Archive.ExtractFile handler₂ p password) := by
  intro handler p password hnever
  have hval : IsValidPath p = false ↔
      (hasDotdot p = true ∨ hasDotdot (NormalizePath p) = true) := by
    unfold IsValidPath
    cases h1 : hasDotdot p <;> cases h2 : hasDotdot (NormalizePath p) <;> simp
  cases hv : IsValidPath p with
  | true =>
    have hok : Archive.ExtractFile handler p password = handler p password := by
      unfold Archive.ExtractFile
      simp [hv]
    constructor
    · rw [hok]
      constructor
      · intro hres
        exact absurd hres (hnever p password)
      · intro hdd
        exact absurd (hval.mpr hdd) (by simp [hv])
    · intro hdd
      exact absurd (hval.mpr hdd) (by simp [hv])
  | false =>
    have hbad : ∀ (h₂ : List Char → String → Except ArchiveError (List Nat × Int)),
        Archive.ExtractFile h₂ p password = .error .pathTraversal := by
      intro h₂
      unfold Archive.ExtractFile
      simp [hv]
    constructor
    · rw [hbad handler]
      simp [hval.mp hv]
    · intro _ h₂
      rw [hbad handler, hbad h₂]

/-- C3 witness at `a/../b` (whose raw form contains `..`). -/
theorem c3_witness :
    ((Archive.ExtractFile handlerOkEmpty "a/../b".toList "" =
        .error .pathTraversal) ↔
      (hasDotdot "a/../b".toList = true ∨
        hasDotdot (NormalizePath "a/../b".toList) = true)) ∧
    ((hasDotdot "a/../b".toList = true ∨
        hasDotdot (NormalizePath "a/../b".toList) = true) →
      ∀ handler₂,
        Archive.ExtractFile handlerOkEmpty "a/../b".toList "" =
          Archive.ExtractFile handler₂ "a/../b".toList "") :=
  c3_guard_substring handlerOkEmpty "a/../b".toList ""
    (fun q w => by simp [handlerOkEmpty])

end Stream7z

namespace Stream7z

/-! ## Field lemmas for the ArchiveInfo accumulator -/

@[simp] theorem ArchiveInfo.add_isEncrypted (info : ArchiveInfo) (e : FileEntry) :
    (info.add e).isEncrypted = info.isEncrypted := rfl

@[simp] theorem ArchiveInfo.add_requiresPassword (info : ArchiveInfo) (e : FileEntry) :
    (info.add e).requiresPassword = info.requiresPassword := rfl

/-! ## C9 / C6 helper lemmas, ZIP -/

/-- Along `zipGetInfoLoop`, `requiresPassword → isEncrypted` is
preserved into any returned info. -/
theorem zipGetInfoLoop_inv :
    ∀ (l : List ZipFile) (openRes : Nat → ZipOpenRes) (password : String)
      (i : Nat) (v : Bool) (info : ArchiveInfo),
      (info.requiresPassword = true → info.isEncrypted = true) →
      ∀ out, (zipGetInfoLoop openRes password i v info l).fst = some out →
        out.requiresPassword = true → out.isEncrypted = true := by
  intro l
  induction l with
  | nil =>
    intro openRes password i v info hinv out hout
    rw [zipGetInfoLoop] at hout
    split at hout
    · rename_i hcond
      injection hout with h
      subst h
      intro _
      simpa using hcond.1
    · injection hout with h
      subst h
      exact hinv
  | cons f rest ih =>
    intro openRes password i v info hinv out hout
    rw [zipGetInfoLoop] at hout
    split at hout
    · -- f.encrypted
      split at hout
      · -- ¬verified ∧ password ≠ ""
        rename_i henc hver
        cases hopen : openRes i with
        | ok =>
          rw [hopen] at hout
          exact ih openRes password (i + 1) true _ (by intro _; rfl) out hout
        | errPassword =>
          rw [hopen] at hout
          injection hout with h
          subst h
          intro _
          rfl
        | errOther m =>
          rw [hopen] at hout
          simp at hout
      · split at hout
        · -- password = ""
          exact ih openRes password (i + 1) v _ (by intro _; rfl) out hout
        · -- password ≠ "", already verified
          exact ih openRes password (i + 1) v _ (by intro _; rfl) out hout
    · -- not encrypted
      exact ih openRes password (i + 1) v _
        (by simpa using hinv) out hout

/-- With an empty password, `zipGetInfoLoop` never aborts; if the
returned info flags encryption, the loop returns the
`PasswordRequired` dual signal with `requiresPassword` set. -/
theorem zipGetInfoLoop_dual :
    ∀ (l : List ZipFile) (openRes : Nat → ZipOpenRes) (i : Nat) (v : Bool)
      (info : ArchiveInfo),
      ∀ out, (zipGetInfoLoop openRes "" i v info l).fst = some out →
        out.isEncrypted = true →
        (zipGetInfoLoop openRes "" i v info l).snd = some passwordRequiredErr ∧
        out.requiresPassword = true := by
  intro l
  induction l with
  | nil =>
    intro openRes i v info out hout henc
    rw [zipGetInfoLoop] at hout ⊢
    split at hout
    · rename_i hcond
      injection hout with h
      subst h
      rw [if_pos hcond]
      exact ⟨rfl, rfl⟩
    · rename_i hcond
      injection hout with h
      subst h
      exact absurd ⟨by simpa using henc, rfl⟩ hcond
  | cons f rest ih =>
    intro openRes i v info out hout henc
    have hmid : ¬(¬v = true ∧ ("" : String) ≠ "") := by simp
    by_cases hencf : f.encrypted = true
    · simp only [zipGetInfoLoop, if_pos hencf, if_neg hmid,
        if_pos (rfl : ("" : String) = "")] at hout ⊢
      exact ih openRes (i + 1) v _ out hout henc
    · simp only [zipGetInfoLoop, if_neg hencf] at hout ⊢
      exact ih openRes (i + 1) v _ out hout henc

/-! ## C9 / C6 helper lemmas, RAR -/

/-- Any info returned by `rarGetInfoLoop` keeps
`requiresPassword → isEncrypted`. -/
theorem rarGetInfoLoop_inv :
    ∀ (l : List RarEvent) (password : String) (info : ArchiveInfo),
      (info.requiresPassword = true → info.isEncrypted = true) →
      ∀ out, (rarGetInfoLoop password info l).fst = some out →
        out.requiresPassword = true → out.isEncrypted = true := by
  intro l
  induction l with
  | nil =>
    intro password info hinv out hout
    rw [rarGetInfoLoop] at hout
    split at hout
    · rename_i hcond
      injection hout with h
      subst h
      intro _
      simpa using hcond.1
    · injection hout with h
      subst h
      exact hinv
  | cons ev rest ih =>
    intro password info hinv out hout
    cases ev with
    | header h =>
      rw [rarGetInfoLoop] at hout
      exact ih password _ (by simpa using hinv) out hout
    | errPassword =>
      rw [rarGetInfoLoop] at hout
      split at hout <;> (injection hout with h; subst h; intro _; rfl)
    | errOther m =>
      rw [rarGetInfoLoop] at hout
      simp at hout

/-- With an empty password, if `rarGetInfoLoop` returns an encrypted
info it also returns the `PasswordRequired` dual signal. -/
theorem rarGetInfoLoop_dual :
    ∀ (l : List RarEvent) (info : ArchiveInfo),
      ∀ out, (rarGetInfoLoop "" info l).fst = some out →
        out.isEncrypted = true →
        (rarGetInfoLoop "" info l).snd = some passwordRequiredErr ∧
        out.requiresPassword = true := by
  intro l
  induction l with
  | nil =>
    intro info out hout henc
    rw [rarGetInfoLoop] at hout ⊢
    split at hout
    · rename_i hcond
      injection hout with h
      subst h
      rw [if_pos hcond]
      exact ⟨rfl, rfl⟩
    · rename_i hcond
      injection hout with h
      subst h
      exact absurd ⟨by simpa using henc, rfl⟩ hcond
  | cons ev rest ih =>
    intro info out hout henc
    cases ev with
    | header h =>
      rw [rarGetInfoLoop] at hout ⊢
      exact ih _ out hout henc
    | errPassword =>
      rw [rarGetInfoLoop] at hout ⊢
      rw [if_neg (by simp)] at hout ⊢
      injection hout with h
      subst h
      exact ⟨rfl, rfl⟩
    | errOther m =>
      rw [rarGetInfoLoop] at hout
      simp at hout

/-! ## C9 / C6 helper lemmas, 7Z -/

/-- `szGetInfoLoop` preserves agreement of the two encryption flags. -/
theorem szGetInfoLoop_flags :
    ∀ (l : List SzFile) (password : String) (entryOpen : Nat → SzOpen)
      (i : Nat) (info : ArchiveInfo),
      info.requiresPassword = info.isEncrypted →
      (szGetInfoLoop password entryOpen i info l).requiresPassword =
        (szGetInfoLoop password entryOpen i info l).isEncrypted := by
  intro l
  induction l with
  | nil => intro password entryOpen i info hagree; simpa using hagree
  | cons f rest ih =>
    intro password entryOpen i info hagree
    rw [szGetInfoLoop]
    by_cases hEnc : password = "" ∧ entryOpen i = SzOpen.errPassword
    · simp only [if_pos hEnc]
      rfl
    · simp only [if_neg hEnc]
      exact ih password entryOpen (i + 1) _ (by simpa using hagree)

/-! ## C9 / C6 helper lemmas, TAR -/

/-- `tarGetInfoLoop` never changes the encryption flags. -/
theorem tarGetInfoLoop_flags :
    ∀ (l : List TarEvent) (info : ArchiveInfo),
      ∀ out, (tarGetInfoLoop info l).fst = some out →
        out.isEncrypted = info.isEncrypted ∧
        out.requiresPassword = info.requiresPassword := by
  intro l
  induction l with
  | nil =>
    intro info out hout
    rw [tarGetInfoLoop] at hout
    injection hout with h
    subst h
    exact ⟨rfl, rfl⟩
  | cons ev rest ih =>
    intro info out hout
    cases ev with
    | header h =>
      rw [tarGetInfoLoop] at hout
      obtain ⟨h1, h2⟩ := ih _ out hout
      simp at h1 h2
      exact ⟨h1, h2⟩
    | errRead m =>
      rw [tarGetInfoLoop] at hout
      simp at hout

end Stream7z

namespace Stream7z

/-! ## C9 — requires_password implies is_encrypted -/

/-- C9: for every handler, every archive input and every password, any
`ArchiveInfo` a GetInfo returns (also one returned alongside an error)
satisfies `requires_password → is_encrypted`. -/
theorem c9_requires_implies_encrypted :
    (∀ (password : String) (openErr : Option String) (comment : String)
       (openRes : Nat → ZipOpenRes) (files : List ZipFile) (out : ArchiveInfo),
       (ZipFormat.GetInfo password openErr comment openRes files).fst = some out →
       out.requiresPassword = true → out.isEncrypted = true) ∧
    (∀ (password : String) (openErr : Option String) (events : List RarEvent)
       (out : ArchiveInfo),
       (RarFormat.GetInfo password openErr events).fst = some out →
       out.requiresPassword = true → out.isEncrypted = true) ∧
    (∀ (password : String) (openRes : SzOpen) (entryOpen : Nat → SzOpen)
       (files : List SzFile) (out : ArchiveInfo),
       (SevenZipFormat.GetInfo password openRes entryOpen files).fst = some out →
       out.requiresPassword = true → out.isEncrypted = true) ∧
    (∀ (password : String) (compErr : Option String) (events : List TarEvent)
       (out : ArchiveInfo),
       (TarFormat.GetInfo password compErr events).fst = some out →
       out.requiresPassword = true → out.isEncrypted = true) := by
  refine ⟨?_, ?_, ?_, ?_⟩
  · intro password openErr comment openRes files out hout
    cases openErr with
    | some m => simp [ZipFormat.GetInfo] at hout
    | none =>
      rw [ZipFormat.GetInfo] at hout
      exact zipGetInfoLoop_inv files openRes password 0 false _
        (by intro h; simp [ArchiveInfo.init] at h) out hout
  · intro password openErr events out hout
    cases openErr with
    | some m => simp [RarFormat.GetInfo] at hout
    | none =>
      rw [RarFormat.GetInfo] at hout
      exact rarGetInfoLoop_inv events password _
        (by intro h; simp [ArchiveInfo.init] at h) out hout
  · intro password openRes entryOpen files out hout
    cases openRes with
    | errPassword =>
      rw [SevenZipFormat.GetInfo] at hout
      split at hout <;> (injection hout with h; subst h; intro _; rfl)
    | errOther m => simp [SevenZipFormat.GetInfo] at hout
    | ok =>
      rw [SevenZipFormat.GetInfo] at hout
      have hflags :=
        szGetInfoLoop_flags files password entryOpen 0 (ArchiveInfo.init "") rfl
      split at hout
      all_goals
        injection hout with h
        subst h
        intro hrp
        rw [← hflags]
        exact hrp
  · intro password compErr events out hout
    unfold TarFormat.GetInfo at hout
    split at hout
    · simp at hout
    · cases compErr with
      | some m => simp at hout
      | none =>
        intro hrp
        obtain ⟨_, h2⟩ := tarGetInfoLoop_flags events _ out hout
        rw [hrp] at h2
        simp [ArchiveInfo.init] at h2

/-- C9 witness: each handler applied at a concrete encrypted archive
(and the TAR conjunct at a plain one). -/
theorem c9_witness :
    ((ZipFormat.GetInfo "" none "" zOpenOkAll [zEncFileA]).fst.map
        ArchiveInfo.isEncrypted = some true) ∧
    ((RarFormat.GetInfo "" none [.errPassword]).fst.map
        ArchiveInfo.isEncrypted = some true) ∧
    ((SevenZipFormat.GetInfo "" .errPassword szOpenOkAll []).fst.map
        ArchiveInfo.isEncrypted = some true) := by
  obtain ⟨hz, hr, hs, _⟩ := c9_requires_implies_encrypted
  refine ⟨?_, ?_, ?_⟩
  · have hf : (ZipFormat.GetInfo "" none "" zOpenOkAll [zEncFileA]).fst =
        some zOutEnc := rfl
    have := hz "" none "" zOpenOkAll [zEncFileA] zOutEnc hf rfl
    rw [hf]
    simpa using this
  · have hf : (RarFormat.GetInfo "" none [.errPassword]).fst =
        some rOutEnc := rfl
    have := hr "" none [.errPassword] rOutEnc hf rfl
    rw [hf]
    simpa using this
  · have hf : (SevenZipFormat.GetInfo "" .errPassword szOpenOkAll []).fst =
        some rOutEnc := rfl
    have := hs "" .errPassword szOpenOkAll [] rOutEnc hf rfl
    rw [hf]
    simpa using this

end Stream7z

namespace Stream7z

/-! ## C6 — the dual signal of GetInfo -/

/-- C6: for every handler, whenever GetInfo sees encryption (the
returned info has `isEncrypted`) and the supplied password is empty, it
returns the populated info with `requiresPassword = true` together
with the `PasswordRequired` error (TAR never reports encryption, so
its conjunct holds vacuously). -/
theorem c6_getinfo_dual_signal :
    (∀ (openErr : Option String) (comment : String) (openRes : Nat → ZipOpenRes)
       (files : List ZipFile) (out : ArchiveInfo),
       (ZipFormat.GetInfo "" openErr comment openRes files).fst = some out →
       out.isEncrypted = true →
       (ZipFormat.GetInfo "" openErr comment openRes files).snd =
         some passwordRequiredErr ∧ out.requiresPassword = true) ∧
    (∀ (openErr : Option String) (events : List RarEvent) (out : ArchiveInfo),
       (RarFormat.GetInfo "" openErr events).fst = some out →
       out.isEncrypted = true →
       (RarFormat.GetInfo "" openErr events).snd = some passwordRequiredErr ∧
       out.requiresPassword = true) ∧
    (∀ (openRes : SzOpen) (entryOpen : Nat → SzOpen) (files : List SzFile)
       (out : ArchiveInfo),
       (SevenZipFormat.GetInfo "" openRes entryOpen files).fst = some out →
       out.isEncrypted = true →
       (SevenZipFormat.GetInfo "" openRes entryOpen files).snd =
         some passwordRequiredErr ∧ out.requiresPassword = true) ∧
    (∀ (compErr : Option String) (events : List TarEvent) (out : ArchiveInfo),
       (TarFormat.GetInfo "" compErr events).fst = some out →
       out.isEncrypted = true →
       (TarFormat.GetInfo "" compErr events).snd = some passwordRequiredErr ∧
       out.requiresPassword = true) := by
  refine ⟨?_, ?_, ?_, ?_⟩
  · intro openErr comment openRes files out hout henc
    cases openErr with
    | some m => simp [ZipFormat.GetInfo] at hout
    | none =>
      rw [ZipFormat.GetInfo] at hout ⊢
      exact zipGetInfoLoop_dual files openRes 0 false _ out hout henc
  · intro openErr events out hout henc
    cases openErr with
    | some m => simp [RarFormat.GetInfo] at hout
    | none =>
      rw [RarFormat.GetInfo] at hout ⊢
      exact rarGetInfoLoop_dual events _ out hout henc
  · intro openRes entryOpen files out hout henc
    cases openRes with
    | errPassword =>
      rw [SevenZipFormat.GetInfo] at hout ⊢
      rw [if_neg (by simp)] at hout ⊢
      injection hout with h
      subst h
      exact ⟨rfl, rfl⟩
    | errOther m => simp [SevenZipFormat.GetInfo] at hout
    | ok =>
      have hflags :=
        szGetInfoLoop_flags files "" entryOpen 0 (ArchiveInfo.init "") rfl
      by_cases hc :
          (szGetInfoLoop "" entryOpen 0 (ArchiveInfo.init "") files).isEncrypted
            = true ∧ ("" : String) = ""
      · have hGet : SevenZipFormat.GetInfo "" .ok entryOpen files =
            (some (szGetInfoLoop "" entryOpen 0 (ArchiveInfo.init "") files),
              some passwordRequiredErr) := by
          show (if (szGetInfoLoop "" entryOpen 0
                    (ArchiveInfo.init "") files).isEncrypted = true ∧
                  ("" : String) = "" then
                (some (szGetInfoLoop "" entryOpen 0 (ArchiveInfo.init "") files),
                  some passwordRequiredErr)
              else
                (some (szGetInfoLoop "" entryOpen 0 (ArchiveInfo.init "") files),
                  none)) = _
          exact if_pos hc
        rw [hGet] at hout
        injection hout with h
        subst h
        refine ⟨by rw [hGet], ?_⟩
        rw [hflags]
        exact henc
      · have hGet : SevenZipFormat.GetInfo "" .ok entryOpen files =
            (some (szGetInfoLoop "" entryOpen 0 (ArchiveInfo.init "") files),
              none) := by
          show (if (szGetInfoLoop "" entryOpen 0
                    (ArchiveInfo.init "") files).isEncrypted = true ∧
                  ("" : String) = "" then
                (some (szGetInfoLoop "" entryOpen 0 (ArchiveInfo.init "") files),
                  some passwordRequiredErr)
              else
                (some (szGetInfoLoop "" entryOpen 0 (ArchiveInfo.init "") files),
                  none)) = _
          exact if_neg hc
        rw [hGet] at hout
        injection hout with h
        subst h
        exact absurd ⟨henc, rfl⟩ hc
  · intro compErr events out hout henc
    unfold TarFormat.GetInfo at hout
    rw [if_neg (by simp)] at hout
    cases compErr with
    | some m => simp at hout
    | none =>
      obtain ⟨h1, _⟩ := tarGetInfoLoop_flags events _ out hout
      rw [henc] at h1
      simp [ArchiveInfo.init] at h1

/-- C6 witness: the three handlers that can see encryption, each at a
concrete encrypted archive with the empty password. -/
theorem c6_witness :
    (ZipFormat.GetInfo "" none "" zOpenOkAll [zEncFileA]).snd =
      some passwordRequiredErr ∧
    zOutEnc.requiresPassword = true ∧
    (RarFormat.GetInfo "" none [.errPassword]).snd = some passwordRequiredErr ∧
    (SevenZipFormat.GetInfo "" .errPassword szOpenOkAll []).snd =
      some passwordRequiredErr := by
  obtain ⟨hz, hr, hs, _⟩ := c6_getinfo_dual_signal
  have h1 := hz none "" zOpenOkAll [zEncFileA] zOutEnc rfl rfl
  have h2 := hr none [.errPassword] rOutEnc rfl rfl
  have h3 := hs .errPassword szOpenOkAll [] rOutEnc rfl rfl
  exact ⟨h1.1, h1.2, h2.1, h3.1⟩

end Stream7z

namespace Stream7z

/-! ## C7 — the 200-OK fallback discards the first `start` bytes -/

/-- Component form of `skipReadBody` on a literal state. -/
theorem skipReadBody_mk (rem : List Nat) (sk len rc : Int) (d : Bool)
    (bufCap : Nat) :
    skipReadBody ⟨rem, sk, len, rc, d⟩ bufCap =
      if len > 0 ∧ rc ≥ len then ([], some .eof, ⟨rem, sk, len, rc, d⟩)
      else if rem = [] then ([], some .eof, ⟨rem, sk, len, rc, d⟩)
      else
        (rem.take (min (if len > 0 then min bufCap (len - rc).toNat else bufCap)
            rem.length),
          none,
          ⟨rem.drop (min (if len > 0 then min bufCap (len - rc).toNat else bufCap)
              rem.length),
            sk, len,
            rc + (min (if len > 0 then min bufCap (len - rc).toNat else bufCap)
              rem.length : Nat), d⟩) := rfl

/-- A reader whose skip already ran behaves as `skipReadBody`. -/
theorem skipRead_done_mk (rem : List Nat) (sk len rc : Int) (bufCap : Nat) :
    skipRead ⟨rem, sk, len, rc, true⟩ bufCap =
      skipReadBody ⟨rem, sk, len, rc, true⟩ bufCap := rfl

/-- First read when the body is shorter than the skip: the copy fails. -/
theorem skipRead_fresh_short (rem : List Nat) (sk len rc : Int) (bufCap : Nat)
    (h : (rem.length : Int) < sk) :
    skipRead ⟨rem, sk, len, rc, false⟩ bufCap =
      ([], some .eof, ⟨[], sk, len, rc, true⟩) := by
  rw [skipRead]
  rw [if_neg (by simp), if_pos h]

/-- First read when the skip succeeds. -/
theorem skipRead_fresh_ok (rem : List Nat) (sk len rc : Int) (bufCap : Nat)
    (h : ¬((rem.length : Int) < sk)) :
    skipRead ⟨rem, sk, len, rc, false⟩ bufCap =
      skipReadBody ⟨rem.drop sk.toNat, sk, len, rc, true⟩ bufCap := by
  rw [skipRead]
  rw [if_neg (by simp), if_neg h]

/-- Unfold one drain step that read without error. -/
theorem skipDrain_step_read (fuel : Nat) (st : SkipState) (bufCap : Nat)
    (out : List Nat) (st' : SkipState)
    (h : skipRead st bufCap = (out, none, st')) :
    skipDrain (fuel + 1) st bufCap = out ++ skipDrain fuel st' bufCap := by
  rw [skipDrain, h]

/-- Unfold one drain step that hit an error. -/
theorem skipDrain_step_err (fuel : Nat) (st : SkipState) (bufCap : Nat)
    (out : List Nat) (e : ReadErr) (st' : SkipState)
    (h : skipRead st bufCap = (out, some e, st')) :
    skipDrain (fuel + 1) st bufCap = out := by
  rw [skipDrain, h]

/-- Draining a reader whose skip already ran yields the next
`length - readCount` bytes of the remaining body. -/
theorem skipDrain_done :
    ∀ (fuel : Nat) (rem : List Nat) (sk len rc : Int) (bufCap : Nat),
      1 ≤ bufCap → 0 < len → 0 ≤ rc → rem.length + 1 ≤ fuel →
      skipDrain fuel ⟨rem, sk, len, rc, true⟩ bufCap =
        rem.take (len - rc).toNat := by
  intro fuel
  induction fuel with
  | zero =>
    intro rem sk len rc bufCap _ _ _ hf
    omega
  | succ n ih =>
    intro rem sk len rc bufCap hb hlen hrc hf
    by_cases hend : rc ≥ len
    · have hread : skipRead ⟨rem, sk, len, rc, true⟩ bufCap =
          ([], some .eof, ⟨rem, sk, len, rc, true⟩) := by
        rw [skipRead_done_mk, skipReadBody_mk, if_pos ⟨hlen, hend⟩]
      rw [skipDrain_step_err n _ bufCap _ _ _ hread]
      have h0 : (len - rc).toNat = 0 := by omega
      rw [h0]
      simp
    · by_cases hrem : rem = []
      · have hread : skipRead ⟨rem, sk, len, rc, true⟩ bufCap =
            ([], some .eof, ⟨rem, sk, len, rc, true⟩) := by
          rw [skipRead_done_mk, skipReadBody_mk, if_neg (by omega), if_pos hrem]
        rw [skipDrain_step_err n _ bufCap _ _ _ hread]
        rw [hrem]
        simp
      · have hread : skipRead ⟨rem, sk, len, rc, true⟩ bufCap =
            (rem.take (min (min bufCap (len - rc).toNat) rem.length), none,
              ⟨rem.drop (min (min bufCap (len - rc).toNat) rem.length), sk, len,
                rc + (min (min bufCap (len - rc).toNat) rem.length : Nat),
                true⟩) := by
          rw [skipRead_done_mk, skipReadBody_mk, if_neg (by omega),
            if_neg hrem, if_pos hlen]
        rw [skipDrain_step_read n _ bufCap _ _ hread]
        have hrl : 1 ≤ rem.length := by
          cases rem with
          | nil => exact absurd rfl hrem
          | cons a l => simp
        have hN1 : 1 ≤ min (min bufCap (len - rc).toNat) rem.length := by
          omega
        have hNle : (min (min bufCap (len - rc).toNat) rem.length : Nat) ≤
            (len - rc).toNat := by
          omega
        rw [ih (rem.drop (min (min bufCap (len - rc).toNat) rem.length)) sk len
          (rc + (min (min bufCap (len - rc).toNat) rem.length : Nat)) bufCap hb
          hlen (by omega) (by rw [List.length_drop]; omega)]
        have harith : (len - rc).toNat =
            min (min bufCap (len - rc).toNat) rem.length +
              (len - (rc + (min (min bufCap (len - rc).toNat) rem.length : Nat))).toNat := by
          omega
        conv_rhs => rw [harith, List.take_add]

/-- Draining a fresh `skipReader` over `data` yields exactly
`take length (drop skip data)`. -/
theorem skipDrain_spec (data : List Nat) (start len : Int) (bufCap fuel : Nat)
    (h0 : 0 ≤ start) (hlen : 0 < len) (hb : 1 ≤ bufCap)
    (hf : data.length + 2 ≤ fuel) :
    skipDrain fuel ⟨data, start, len, 0, false⟩ bufCap =
      (data.drop start.toNat).take len.toNat := by
  cases fuel with
  | zero => omega
  | succ n =>
    by_cases hshort : (data.length : Int) < start
    · rw [skipDrain_step_err n _ bufCap _ _ _
        (skipRead_fresh_short data start len 0 bufCap hshort)]
      have hnil : data.drop start.toNat = [] :=
        List.drop_eq_nil_of_le (by omega)
      rw [hnil]
      simp
    · have h1 : skipDrain (n + 1) ⟨data, start, len, 0, false⟩ bufCap =
          skipDrain (n + 1) ⟨data.drop start.toNat, start, len, 0, true⟩
            bufCap := by
        conv_lhs => rw [skipDrain, skipRead_fresh_ok data start len 0 bufCap hshort]
        conv_rhs => rw [skipDrain, skipRead_done_mk]
      rw [h1, skipDrain_done (n + 1) (data.drop start.toNat) start len 0 bufCap
        hb hlen le_rfl (by rw [List.length_drop]; omega)]
      simp

/-- Draining a reader whose skip already ran and whose exposed length
is not positive (the uncapped case) yields the whole remaining body. -/
theorem skipDrain_done_nocap :
    ∀ (fuel : Nat) (rem : List Nat) (sk len rc : Int) (bufCap : Nat),
      1 ≤ bufCap → len ≤ 0 → rem.length + 1 ≤ fuel →
      skipDrain fuel ⟨rem, sk, len, rc, true⟩ bufCap = rem := by
  intro fuel
  induction fuel with
  | zero =>
    intro rem sk len rc bufCap _ _ hf
    omega
  | succ n ih =>
    intro rem sk len rc bufCap hb hlen hf
    by_cases hrem : rem = []
    · have hread : skipRead ⟨rem, sk, len, rc, true⟩ bufCap =
          ([], some .eof, ⟨rem, sk, len, rc, true⟩) := by
        rw [skipRead_done_mk, skipReadBody_mk, if_neg (by omega), if_pos hrem]
      rw [skipDrain_step_err n _ bufCap _ _ _ hread, hrem]
    · have hread : skipRead ⟨rem, sk, len, rc, true⟩ bufCap =
          (rem.take (min bufCap rem.length), none,
            ⟨rem.drop (min bufCap rem.length), sk, len,
              rc + (min bufCap rem.length : Nat), true⟩) := by
        rw [skipRead_done_mk, skipReadBody_mk, if_neg (by omega), if_neg hrem,
          if_neg (by omega)]
      rw [skipDrain_step_read n _ bufCap _ _ hread]
      have hrl : 1 ≤ rem.length := by
        cases rem with
        | nil => exact absurd rfl hrem
        | cons a l => simp
      rw [ih (rem.drop (min bufCap rem.length)) sk len
        (rc + (min bufCap rem.length : Nat)) bufCap hb hlen
        (by rw [List.length_drop]; omega)]
      exact List.take_append_drop _ rem

/-- Draining a fresh `skipReader` with a non-positive exposed length
yields everything after the skip. -/
theorem skipDrain_spec_nocap (data : List Nat) (start len : Int)
    (bufCap fuel : Nat) (h0 : 0 ≤ start) (hlen : len ≤ 0) (hb : 1 ≤ bufCap)
    (hf : data.length + 2 ≤ fuel) :
    skipDrain fuel ⟨data, start, len, 0, false⟩ bufCap =
      data.drop start.toNat := by
  cases fuel with
  | zero => omega
  | succ n =>
    by_cases hshort : (data.length : Int) < start
    · rw [skipDrain_step_err n _ bufCap _ _ _
        (skipRead_fresh_short data start len 0 bufCap hshort)]
      exact (List.drop_eq_nil_of_le (by omega)).symm
    · have h1 : skipDrain (n + 1) ⟨data, start, len, 0, false⟩ bufCap =
          skipDrain (n + 1) ⟨data.drop start.toNat, start, len, 0, true⟩
            bufCap := by
        conv_lhs => rw [skipDrain, skipRead_fresh_ok data start len 0 bufCap hshort]
        conv_rhs => rw [skipDrain, skipRead_done_mk]
      rw [h1, skipDrain_done_nocap (n + 1) (data.drop start.toNat) start len 0
        bufCap hb hlen (by rw [List.length_drop]; omega)]

/-- C7: when the origin answers `200 OK` with `start > 0`, the
transport hands back a skipReader over the full body, and a caller
draining it receives the body bytes from index `start` on — for a
bounded request (`length > 0`) capped at the requested length, and for
the to-end sentinel (`length = -1`, where the code substitutes
`ContentLength - start`) everything after `start`, given that Go's
`http.Response.ContentLength` is `-1` (unknown) or at least the body
length. -/
theorem c7_fallback_skips_start :
    ∀ (http : Int → Int → HttpResp) (start : Int) (bufCap fuel : Nat),
      0 < start → 1 ≤ bufCap →
      (∀ (len : Int) (data : List Nat) (cl : Int),
        0 < len → http start len = ⟨200, data, cl⟩ →
        data.length + 2 ≤ fuel →
        Client.RangeRequest http start len = (.ok (.skip data start len), 1) ∧
        skipDrain fuel ⟨data, start, len, 0, false⟩ bufCap =
          (data.drop start.toNat).take len.toNat) ∧
      (∀ (data : List Nat) (cl : Int),
        http start (-1) = ⟨200, data, cl⟩ →
        (cl = -1 ∨ (data.length : Int) ≤ cl) →
        data.length + 2 ≤ fuel →
        Client.RangeRequest http start (-1) =
          (.ok (.skip data start (cl - start)), 1) ∧
        skipDrain fuel ⟨data, start, cl - start, 0, false⟩ bufCap =
          data.drop start.toNat) := by
  intro http start bufCap fuel hs hb
  constructor
  · intro len data cl hl hresp hfuel
    constructor
    · rw [Client.RangeRequest]
      rw [if_neg (show ¬(len = 0) by omega)]
      rw [hresp]
      rw [if_pos (show (HttpResp.mk 200 data cl).status = 206 ∨
          (HttpResp.mk 200 data cl).status = 200 from Or.inr rfl)]
      rw [if_pos (show (HttpResp.mk 200 data cl).status = 200 ∧ start > 0 from
          ⟨rfl, hs⟩)]
      rw [if_neg (show ¬(len = -1) by omega)]
    · exact skipDrain_spec data start len bufCap fuel (le_of_lt hs) hl hb hfuel
  · intro data cl hresp hcl hfuel
    constructor
    · rw [Client.RangeRequest]
      rw [if_neg (show ¬((-1 : Int) = 0) by decide)]
      rw [hresp]
      rw [if_pos (show (HttpResp.mk 200 data cl).status = 206 ∨
          (HttpResp.mk 200 data cl).status = 200 from Or.inr rfl)]
      rw [if_pos (show (HttpResp.mk 200 data cl).status = 200 ∧ start > 0 from
          ⟨rfl, hs⟩)]
      rw [if_pos (show (-1 : Int) = -1 from rfl)]
    · by_cases hpos : 0 < cl - start
      · rw [skipDrain_spec data start (cl - start) bufCap fuel (le_of_lt hs)
          hpos hb hfuel]
        rcases hcl with hcl | hcl
        · exact absurd hpos (by omega)
        · apply List.take_of_length_le
          rw [List.length_drop]
          omega
      · exact skipDrain_spec_nocap data start (cl - start) bufCap fuel
          (le_of_lt hs) (by omega) hb hfuel

/-- C7 witness: origin body `[10, 20, 30, 40, 50]` with
`Content-Length` 5, start 2, single-byte read buffers — once with the
bounded length 3 and once with the to-end sentinel `-1`. -/
theorem c7_witness :
    (Client.RangeRequest httpOk200 2 3 =
        (.ok (.skip [10, 20, 30, 40, 50] 2 3), 1) ∧
      skipDrain 10 ⟨[10, 20, 30, 40, 50], 2, 3, 0, false⟩ 1 = [30, 40, 50]) ∧
    (Client.RangeRequest httpOk200 2 (-1) =
        (.ok (.skip [10, 20, 30, 40, 50] 2 ((5 : Int) - 2)), 1) ∧
      skipDrain 10 ⟨[10, 20, 30, 40, 50], 2, (5 : Int) - 2, 0, false⟩ 1 =
        [30, 40, 50]) := by
  have h := c7_fallback_skips_start httpOk200 2 1 10 (by decide) (by decide)
  have h1 := h.1 3 [10, 20, 30, 40, 50] 5 (by decide) rfl (by decide)
  have h2 := h.2 [10, 20, 30, 40, 50] 5 rfl (Or.inr (by decide)) (by decide)
  refine ⟨⟨h1.1, ?_⟩, h2.1, ?_⟩
  · rw [h1.2]
    decide
  · rw [h2.2]
    decide

end Stream7z

namespace Stream7z

/-! ## C5 — shape of NormalizePath's output -/

/-- C5 counterexample: `NormalizePath("")` is `"."` (a `.` segment) and
`NormalizePath("..")` is `".."` (a `..` segment), as the repository's
own path tests record. -/
theorem c5_counterexample :
    dotSeg ∈ splitSlash (NormalizePath []) ∧
    dotdotSeg ∈ splitSlash (NormalizePath dotdotSeg) := by
  decide

theorem noDotdotSeg_mem :
    ∀ (l : List (List Char)), noDotdotSeg l = true →
      ∀ s ∈ l, s ≠ dotdotSeg := by
  intro l
  induction l with
  | nil => intro _ s hs; simp at hs
  | cons a rest ih =>
    intro h s hs
    rw [noDotdotSeg] at h
    by_cases ha : a = dotdotSeg
    · rw [if_pos ha] at h
      exact absurd h (by decide)
    · rw [if_neg ha] at h
      rcases List.mem_cons.mp hs with rfl | hmem
      · exact ha
      · exact ih h s hmem

theorem noDotdotSeg_append :
    ∀ (l : List (List Char)) (s : List Char), noDotdotSeg l = true →
      s ≠ dotdotSeg → noDotdotSeg (l ++ [s]) = true := by
  intro l
  induction l with
  | nil =>
    intro s _ hs
    rw [List.nil_append, noDotdotSeg, if_neg hs]
    rfl
  | cons a rest ih =>
    intro s h hs
    rw [List.cons_append, noDotdotSeg]
    rw [noDotdotSeg] at h
    by_cases ha : a = dotdotSeg
    · rw [if_pos ha] at h
      exact absurd h (by decide)
    · rw [if_neg ha] at h ⊢
      exact ih s h hs

theorem noDotdotSeg_append_left :
    ∀ (l t : List (List Char)), noDotdotSeg (l ++ t) = true →
      noDotdotSeg l = true := by
  intro l
  induction l with
  | nil => intro t _; rfl
  | cons a rest ih =>
    intro t h
    rw [List.cons_append, noDotdotSeg] at h
    rw [noDotdotSeg]
    by_cases ha : a = dotdotSeg
    · rw [if_pos ha] at h
      exact absurd h (by decide)
    · rw [if_neg ha] at h ⊢
      exact ih t h

theorem dotdotOnlyLeading_append_left :
    ∀ (l t : List (List Char)), dotdotOnlyLeading (l ++ t) = true →
      dotdotOnlyLeading l = true := by
  intro l
  induction l with
  | nil => intro t _; rfl
  | cons a rest ih =>
    intro t h
    rw [List.cons_append, dotdotOnlyLeading] at h
    rw [dotdotOnlyLeading]
    by_cases ha : a = dotdotSeg
    · rw [if_pos ha] at h ⊢
      exact ih t h
    · rw [if_neg ha] at h ⊢
      exact noDotdotSeg_append_left rest t h

theorem dotdotOnlyLeading_append :
    ∀ (l : List (List Char)) (s : List Char), dotdotOnlyLeading l = true →
      s ≠ dotdotSeg → dotdotOnlyLeading (l ++ [s]) = true := by
  intro l
  induction l with
  | nil =>
    intro s _ hs
    rw [List.nil_append, dotdotOnlyLeading, if_neg hs]
    rfl
  | cons a rest ih =>
    intro s h hs
    rw [List.cons_append, dotdotOnlyLeading]
    rw [dotdotOnlyLeading] at h
    by_cases ha : a = dotdotSeg
    · rw [if_pos ha] at h ⊢
      exact ih s h hs
    · rw [if_neg ha] at h ⊢
      exact noDotdotSeg_append rest s h hs

theorem dotdotOnlyLeading_of_all :
    ∀ (l : List (List Char)), (∀ s ∈ l, s = dotdotSeg) →
      dotdotOnlyLeading l = true := by
  intro l
  induction l with
  | nil => intro _; rfl
  | cons a rest ih =>
    intro hall
    rw [dotdotOnlyLeading, if_pos (hall a (List.mem_cons_self a rest))]
    exact ih (fun s hs => hall s (List.mem_cons_of_mem a hs))

theorem all_dotdot_of_last :
    ∀ (l : List (List Char)), dotdotOnlyLeading l = true →
      l.getLast? = some dotdotSeg → ∀ s ∈ l, s = dotdotSeg := by
  intro l
  induction l with
  | nil => intro _ hlast; simp at hlast
  | cons a rest ih =>
    intro hB hlast s hs
    cases rest with
    | nil =>
      simp only [List.getLast?_singleton, Option.some_inj] at hlast
      rcases List.mem_cons.mp hs with rfl | hmem
      · exact hlast
      · simp at hmem
    | cons b rest' =>
      rw [List.getLast?_cons_cons] at hlast
      rw [dotdotOnlyLeading] at hB
      by_cases ha : a = dotdotSeg
      · rw [if_pos ha] at hB
        rcases List.mem_cons.mp hs with rfl | hmem
        · exact ha
        · exact ih hB hlast s hmem
      · rw [if_neg ha] at hB
        have hdd : dotdotSeg ∈ b :: rest' :=
          List.mem_of_mem_getLast? (Option.mem_def.mpr hlast)
        exact absurd rfl (noDotdotSeg_mem _ hB dotdotSeg hdd)

theorem splitSlash_ne_nil : ∀ (s : List Char), splitSlash s ≠ [] := by
  intro s
  cases s with
  | nil => simp [splitSlash]
  | cons c rest =>
    rw [splitSlash]
    by_cases hc : c = '/'
    · simp [hc]
    · rw [if_neg hc]
      cases h : splitSlash rest <;> simp

theorem noslash_mem_splitSlash :
    ∀ (s : List Char) (l : List Char), l ∈ splitSlash s → '/' ∉ l := by
  intro s
  induction s with
  | nil =>
    intro l hl
    rw [splitSlash] at hl
    simp at hl
    subst hl
    simp
  | cons c rest ih =>
    intro l hl
    rw [splitSlash] at hl
    by_cases hc : c = '/'
    · rw [if_pos hc] at hl
      rcases List.mem_cons.mp hl with rfl | hmem
      · simp
      · exact ih l hmem
    · rw [if_neg hc] at hl
      cases hsp : splitSlash rest with
      | nil => exact absurd hsp (splitSlash_ne_nil rest)
      | cons s1 ss =>
        rw [hsp] at hl
        rcases List.mem_cons.mp hl with rfl | hmem
        · intro hmem2
          rcases List.mem_cons.mp hmem2 with heq | hmem3
          · exact hc heq.symm
          · exact ih s1 (by rw [hsp]; exact List.mem_cons_self s1 ss) hmem3
        · exact ih l (by rw [hsp]; exact List.mem_cons_of_mem s1 hmem)

theorem splitSlash_noslash :
    ∀ (s : List Char), '/' ∉ s → splitSlash s = [s] := by
  intro s
  induction s with
  | nil => intro _; rfl
  | cons c rest ih =>
    intro h
    rw [splitSlash]
    have hc : ¬(c = '/') := by
      intro hcc
      exact h (by rw [hcc]; exact List.mem_cons_self '/' rest)
    rw [if_neg hc, ih (fun hm => h (List.mem_cons_of_mem c hm))]

theorem splitSlash_append :
    ∀ (s t : List Char), '/' ∉ s →
      splitSlash (s ++ '/' :: t) = s :: splitSlash t := by
  intro s
  induction s with
  | nil =>
    intro t _
    rw [List.nil_append, splitSlash, if_pos rfl]
  | cons c s' ih =>
    intro t h
    rw [List.cons_append, splitSlash]
    have hc : ¬(c = '/') := by
      intro hcc
      exact h (by rw [hcc]; exact List.mem_cons_self '/' s')
    rw [if_neg hc, ih t (fun hm => h (List.mem_cons_of_mem c hm))]

theorem splitSlash_joinSlash :
    ∀ (ss : List (List Char)), ss ≠ [] → (∀ l ∈ ss, '/' ∉ l) →
      splitSlash (joinSlash ss) = ss := by
  intro ss
  induction ss with
  | nil => intro h; exact absurd rfl h
  | cons s rest ih =>
    intro _ hall
    cases rest with
    | nil => exact splitSlash_noslash s (hall s (List.mem_cons_self s []))
    | cons b rest' =>
      have hjoin : joinSlash (s :: b :: rest') =
          s ++ '/' :: joinSlash (b :: rest') := rfl
      rw [hjoin, splitSlash_append s _ (hall s (List.mem_cons_self s _)),
        ih (by simp) (fun l hl => hall l (List.mem_cons_of_mem s hl))]

theorem head?_joinSlash :
    ∀ (s : List Char) (ss : List (List Char)), s ≠ [] →
      (joinSlash (s :: ss)).head? = s.head? := by
  intro s ss hs
  cases ss with
  | nil => rfl
  | cons b rest =>
    cases s with
    | nil => exact absurd rfl hs
    | cons c s' => rfl

theorem trimLeadSlash_cons_slash (rest : List Char) :
    trimLeadSlash ('/' :: rest) = rest := by
  rw [trimLeadSlash, if_pos rfl]

theorem trimLeadSlash_of_head (x : List Char) (h : x.head? ≠ some '/') :
    trimLeadSlash x = x := by
  cases x with
  | nil => rfl
  | cons c rest =>
    rw [trimLeadSlash,
      if_neg (fun hc => h (by rw [List.head?_cons, hc]))]

theorem cleanStep_skip (rooted : Bool) (acc : List (List Char))
    (seg : List Char) (h : seg = [] ∨ seg = dotSeg) :
    cleanStep rooted acc seg = acc := by
  rw [cleanStep, if_pos h]

theorem cleanStep_dotdot_none (rooted : Bool) (acc : List (List Char))
    (h : acc.getLast? = none) :
    cleanStep rooted acc dotdotSeg = if rooted then [] else [dotdotSeg] := by
  rw [cleanStep, if_neg (by decide), if_pos rfl, h]

theorem cleanStep_dotdot_pop (rooted : Bool) (acc : List (List Char))
    (l : List Char) (h : acc.getLast? = some l) (hl : l ≠ dotdotSeg) :
    cleanStep rooted acc dotdotSeg = acc.dropLast := by
  rw [cleanStep, if_neg (by decide), if_pos rfl, h]
  show (if l = dotdotSeg then acc ++ [dotdotSeg] else acc.dropLast) = acc.dropLast
  rw [if_neg hl]

theorem cleanStep_dotdot_dup (rooted : Bool) (acc : List (List Char))
    (l : List Char) (h : acc.getLast? = some l) (hl : l = dotdotSeg) :
    cleanStep rooted acc dotdotSeg = acc ++ [dotdotSeg] := by
  rw [cleanStep, if_neg (by decide), if_pos rfl, h]
  show (if l = dotdotSeg then acc ++ [dotdotSeg] else acc.dropLast) =
    acc ++ [dotdotSeg]
  rw [if_pos hl]

theorem cleanStep_plain (rooted : Bool) (acc : List (List Char))
    (seg : List Char) (h1 : ¬(seg = [] ∨ seg = dotSeg))
    (h2 : ¬(seg = dotdotSeg)) :
    cleanStep rooted acc seg = acc ++ [seg] := by
  rw [cleanStep, if_neg h1, if_neg h2]

/-- The invariant kept by Go Clean's element loop: accumulated segments
are nonempty, not `.`, slash-free, and `..` occurs only leading. -/
theorem cleanStep_inv (rooted : Bool) (acc : List (List Char))
    (seg : List Char)
    (hA : ∀ s ∈ acc, s ≠ [] ∧ s ≠ dotSeg ∧ '/' ∉ s)
    (hB : dotdotOnlyLeading acc = true)
    (hseg : '/' ∉ seg) :
    (∀ s ∈ cleanStep rooted acc seg, s ≠ [] ∧ s ≠ dotSeg ∧ '/' ∉ s) ∧
    dotdotOnlyLeading (cleanStep rooted acc seg) = true := by
  by_cases h1 : seg = [] ∨ seg = dotSeg
  · rw [cleanStep_skip rooted acc seg h1]
    exact ⟨hA, hB⟩
  · by_cases h2 : seg = dotdotSeg
    · subst h2
      cases hlast : acc.getLast? with
      | none =>
        rw [cleanStep_dotdot_none rooted acc hlast]
        cases rooted
        · rw [if_neg (by decide)]
          constructor
          · intro s hs
            simp at hs
            subst hs
            exact ⟨by decide, by decide, by decide⟩
          · decide
        · rw [if_pos rfl]
          exact ⟨by intro s hs; simp at hs, by decide⟩
      | some l =>
        by_cases h3 : l = dotdotSeg
        · rw [cleanStep_dotdot_dup rooted acc l hlast h3]
          have hall : ∀ s ∈ acc, s = dotdotSeg :=
            all_dotdot_of_last acc hB (h3 ▸ hlast)
          constructor
          · intro s hs
            rcases List.mem_append.mp hs with hm | hm
            · exact hA s hm
            · simp at hm
              subst hm
              exact ⟨by decide, by decide, by decide⟩
          · apply dotdotOnlyLeading_of_all
            intro s hs
            rcases List.mem_append.mp hs with hm | hm
            · exact hall s hm
            · simpa using hm
        · rw [cleanStep_dotdot_pop rooted acc l hlast h3]
          constructor
          · intro s hs
            exact hA s (List.dropLast_subset acc hs)
          · obtain ⟨t, ht⟩ := List.dropLast_prefix acc
            rw [← ht] at hB
            exact dotdotOnlyLeading_append_left _ t hB
    · rw [cleanStep_plain rooted acc seg h1 h2]
      constructor
      · intro s hs
        rcases List.mem_append.mp hs with hm | hm
        · exact hA s hm
        · simp at hm
          subst hm
          exact ⟨fun hc => h1 (Or.inl hc), fun hc => h1 (Or.inr hc), hseg⟩
      · exact dotdotOnlyLeading_append acc seg hB h2

theorem cleanSegsGo_inv (rooted : Bool) :
    ∀ (segs : List (List Char)) (acc : List (List Char)),
      (∀ s ∈ acc, s ≠ [] ∧ s ≠ dotSeg ∧ '/' ∉ s) →
      dotdotOnlyLeading acc = true →
      (∀ l ∈ segs, '/' ∉ l) →
      (∀ s ∈ cleanSegsGo rooted acc segs, s ≠ [] ∧ s ≠ dotSeg ∧ '/' ∉ s) ∧
      dotdotOnlyLeading (cleanSegsGo rooted acc segs) = true := by
  intro segs
  induction segs with
  | nil => intro acc hA hB _; exact ⟨hA, hB⟩
  | cons seg rest ih =>
    intro acc hA hB hsegs
    rw [cleanSegsGo]
    obtain ⟨hA', hB'⟩ := cleanStep_inv rooted acc seg hA hB
      (hsegs seg (List.mem_cons_self seg rest))
    exact ih _ hA' hB' (fun l hl => hsegs l (List.mem_cons_of_mem seg hl))

/-- `clean` on a nonempty path, with the `let`s inlined. -/
theorem clean_eq (p : List Char) (h : p ≠ []) :
    clean p =
      if cleanSegsGo (decide (p.head? = some '/')) [] (splitSlash p) = [] then
        (if decide (p.head? = some '/') = true then ['/'] else dotSeg)
      else
        (if decide (p.head? = some '/') = true then ['/'] else []) ++
          joinSlash (cleanSegsGo (decide (p.head? = some '/')) [] (splitSlash p)) := by
  rw [clean, if_neg h]

/-- C5 (amended): `NormalizePath(p)` never starts with `/`; it has a
`.` segment only when the whole result is the single segment `.`
(inputs equivalent to the root or the empty path); and `..` segments
occur only as a leading run (inputs that climb above the root), never
after a normal segment. -/
theorem c5_normalizePath_shape :
    ∀ (p : List Char),
      (NormalizePath p).head? ≠ some '/' ∧
      (dotSeg ∈ splitSlash (NormalizePath p) → NormalizePath p = dotSeg) ∧
      dotdotOnlyLeading (splitSlash (NormalizePath p)) = true := by
  intro p
  unfold NormalizePath
  generalize trimLeadSlash p = q
  by_cases hq : q = []
  · subst hq
    exact ⟨by decide, by decide, by decide⟩
  · rw [clean_eq q hq]
    by_cases hS : cleanSegsGo (decide (q.head? = some '/')) [] (splitSlash q) = []
    · rw [if_pos hS]
      cases hroot : decide (q.head? = some '/')
      · rw [if_neg (show ¬(false = true) by decide)]
        exact ⟨by decide, by decide, by decide⟩
      · rw [if_pos (show true = true from rfl)]
        exact ⟨by decide, by decide, by decide⟩
    · rw [if_neg hS]
      obtain ⟨hA, hB⟩ := cleanSegsGo_inv (decide (q.head? = some '/'))
        (splitSlash q) [] (by intro s hs; simp at hs) rfl
        (fun l hl => noslash_mem_splitSlash q l hl)
      cases hSval : cleanSegsGo (decide (q.head? = some '/')) [] (splitSlash q) with
      | nil => exact absurd hSval hS
      | cons s0 rest =>
        rw [hSval] at hA hB
        have hs0 := hA s0 (List.mem_cons_self s0 rest)
        have hJhead : (joinSlash (s0 :: rest)).head? = s0.head? :=
          head?_joinSlash s0 rest hs0.1
        have hJheadne : (joinSlash (s0 :: rest)).head? ≠ some '/' := by
          rw [hJhead]
          cases s0 with
          | nil => exact absurd rfl hs0.1
          | cons c s0' =>
            rw [List.head?_cons]
            intro hcc
            injection hcc with hcc
            exact hs0.2.2 (List.mem_cons.mpr (Or.inl hcc.symm))
        have hsplit : splitSlash (joinSlash (s0 :: rest)) = s0 :: rest :=
          splitSlash_joinSlash (s0 :: rest) (by simp)
            (fun l hl => (hA l hl).2.2)
        have hG : (joinSlash (s0 :: rest)).head? ≠ some '/' ∧
            (dotSeg ∈ splitSlash (joinSlash (s0 :: rest)) →
              joinSlash (s0 :: rest) = dotSeg) ∧
            dotdotOnlyLeading (splitSlash (joinSlash (s0 :: rest))) = true := by
          refine ⟨hJheadne, ?_, ?_⟩
          · intro hmem
            rw [hsplit] at hmem
            exact absurd rfl ((hA dotSeg hmem).2.1)
          · rw [hsplit]
            exact hB
        cases hroot : decide (q.head? = some '/')
        · rw [if_neg (show ¬(false = true) by decide), List.nil_append,
            trimLeadSlash_of_head _ hJheadne]
          exact hG
        · rw [if_pos (show true = true from rfl)]
          rw [show (['/'] : List Char) ++ joinSlash (s0 :: rest) =
              '/' :: joinSlash (s0 :: rest) from rfl, trimLeadSlash_cons_slash]
          exact hG

/-- C5 witness: the amended theorem applied at the empty path, whose
normalization is the single segment `.`. -/
theorem c5_witness : NormalizePath [] = dotSeg :=
  (c5_normalizePath_shape []).2.1 (by decide)

end Stream7z
